import Mathlib

/-!
Verification of the core puzzle state machine of a browser-based 10×10
jigsaw puzzle (src/script.js).  The board is a fixed array of 100 tiles;
tile at board position `pos` holds a piece index recorded in
`tile.dataset.piece`.  We model the board as a `List Nat` of length 100
whose entry at index `pos` is that piece index.  Randomness
(`Math.random`) is modelled by an arbitrary stream of natural-number
draws; `Math.floor(Math.random() * (i + 1))` yields exactly the values
`0 .. i`, which we obtain as `r i % (i + 1)`.
-/

namespace Puzzle

/-- `const N = 10` — the board is 10×10. -/
def N : Nat := 10

/-- `const total = N * N` — 100 tiles. -/
def total : Nat := N * N

/-- `isSolved()`: `tiles.every(t => t.dataset.piece === t.dataset.correct)`.
`dataset.correct` of the tile at position `pos` is `String(pos)`, so the
check is: every tile holds the piece equal to its own position. -/
def isSolved (tiles : List Nat) : Bool :=
  tiles.enum.all fun p => p.2 == p.1

/-- `swapTilePieces(a, b)`: reads `a.dataset.piece` and `b.dataset.piece`,
then `setTilePiece(a, bPiece); setTilePiece(b, aPiece)`.  Modelled on the
board list with `a` `b` the two tiles' board positions. -/
def swapTilePieces (tiles : List Nat) (a b : Nat) : List Nat :=
  let aPiece := tiles.getD a 0
  let bPiece := tiles.getD b 0
  (tiles.set a bPiece).set b aPiece

/-- One loop body of `shuffleInPlace`:
`[arr[i], arr[j]] = [arr[j], arr[i]]` — both reads happen before the two
writes. -/
def listSwap (l : List Nat) (i j : Nat) : List Nat :=
  (l.set i (l.getD j 0)).set j (l.getD i 0)

/-- The `for (let i = arr.length - 1; i > 0; i--)` loop of
`shuffleInPlace`, with the counter `i` as the structural argument and
`Math.floor(Math.random() * (i + 1))` modelled as `r i % (i + 1)`. -/
def shuffleAux (r : Nat → Nat) : Nat → List Nat → List Nat
  | 0, l => l
  | i + 1, l => shuffleAux r i (listSwap l (i + 1) (r (i + 1) % (i + 2)))

/-- `shuffleInPlace(arr)` — Fisher-Yates over the random draws `r`. -/
def shuffleInPlace (r : Nat → Nat) (l : List Nat) : List Nat :=
  shuffleAux r (l.length - 1) l

/-- The `do { ... } while` loop of `shuffleUntilNotSolved`: `attempts`
counts completed shuffles, `left` is the number of shuffles still
allowed before the `attempts > 5` bail-out (6 at the initial call);
the loop re-shuffles while `shuffled.every((v, i) => v === i)`. -/
def shuffleGo (r : Nat → Nat → Nat) : Nat → Nat → List Nat → List Nat
  | _, 0, shuffled => shuffled
  | attempts, left + 1, shuffled =>
    let s := shuffleInPlace (r attempts) shuffled
    if left = 0 then s
    else if s.enum.all fun p => p.2 == p.1 then shuffleGo r (attempts + 1) left s
    else s

/-- `shuffleUntilNotSolved(indices)`. -/
def shuffleUntilNotSolved (r : Nat → Nat → Nat) (indices : List Nat) : List Nat :=
  shuffleGo r 0 6 indices

/-- The arrangement after the first `k` shuffle passes of the
`shuffleUntilNotSolved` loop, starting at attempt number `a`:
pass `k + 1` applies `shuffleInPlace` with the draws of attempt
`a + k` to the result of the first `k` passes. -/
def shufflePasses (r : Nat → Nat → Nat) (a : Nat) (l : List Nat) : Nat → List Nat
  | 0 => l
  | k + 1 => shuffleInPlace (r (a + k)) (shufflePasses r a l k)

/-- `const HISTORY_LIMIT = 200`. -/
def HISTORY_LIMIT : Nat := 200

/-- A history snapshot as built by `getSnapshot()`/consumed by
`applySnapshot(snap)`.  `pieces` is `none` when the field is not an
array (`!Array.isArray(snap.pieces)`); `elapsedMs` is an integer so the
`Math.max(0, Number(snap.elapsedMs) || 0)` clamp is meaningful. -/
structure Snapshot where
  pieces : Option (List Nat)
  preview : Bool
  edges : Bool
  elapsedMs : Int
  running : Bool
deriving DecidableEq

/-- The mutable game state the script keeps: the 100 `tiles` (each
holding a piece index), the two checkbox toggles, the three timer
variables, and the two history stacks.  JS arrays push/pop at the END
(`Array.push`/`Array.pop`) and drop the oldest entry at the front
(`Array.shift`), so the stacks are lists whose last element is the top. -/
structure GameState where
  tiles : List Nat
  preview : Bool
  edges : Bool
  timerElapsedMs : Nat
  timerRunning : Bool
  timerStartAt : Nat
  undoStack : List Snapshot
  redoStack : List Snapshot
deriving DecidableEq

/-- `getSnapshot()` at wall-clock time `now` (`Date.now()`). -/
def getSnapshot (now : Nat) (g : GameState) : Snapshot :=
  { pieces := some g.tiles
    preview := g.preview
    edges := g.edges
    elapsedMs := Int.ofNat
      (if g.timerRunning then g.timerElapsedMs + (now - g.timerStartAt)
       else g.timerElapsedMs)
    running := g.timerRunning }

/-- `applySnapshot(snap)`: guard
`if (!snap || !Array.isArray(snap.pieces) || snap.pieces.length !== total) return;`
then assign each tile its piece from `snap.pieces`, set the toggles, and
reset the timer from the snapshot (a running timer restarts at `now`).
The DOM/status updates and the `saveState()` call touch no game state
modelled here; the history stacks are left untouched. -/
def applySnapshot (now : Nat) (snap : Option Snapshot) (g : GameState) : GameState :=
  match snap with
  | none => g
  | some s =>
    match s.pieces with
    | none => g
    | some ps =>
      if ps.length ≠ total then g
      else
        { g with
          tiles := (List.range g.tiles.length).map fun pos => ps.getD pos 0
          preview := s.preview
          edges := s.edges
          timerElapsedMs := (max 0 s.elapsedMs).toNat
          timerRunning := s.running
          timerStartAt := if s.running then now else 0 }

/-- `pushUndo(customSnap)`: push onto the undo stack, drop the oldest
entry over `HISTORY_LIMIT`, and clear the redo stack. -/
def pushUndo (snap : Snapshot) (g : GameState) : GameState :=
  let u := g.undoStack ++ [snap]
  { g with
    undoStack := if u.length > HISTORY_LIMIT then u.tail else u
    redoStack := [] }

/-- `doUndo()`: nothing on an empty undo stack; otherwise pop the top
snapshot, push the current snapshot onto the redo stack (dropping its
oldest entry over the limit) and apply the popped snapshot. -/
def doUndo (now : Nat) (g : GameState) : GameState :=
  if g.undoStack = [] then g
  else
    let current := getSnapshot now g
    let prev := g.undoStack.getLast?
    let rs := g.redoStack ++ [current]
    applySnapshot now prev
      { g with
        undoStack := g.undoStack.dropLast
        redoStack := if rs.length > HISTORY_LIMIT then rs.tail else rs }

/-- `doRedo()`: the mirror image of `doUndo`. -/
def doRedo (now : Nat) (g : GameState) : GameState :=
  if g.redoStack = [] then g
  else
    let current := getSnapshot now g
    let next := g.redoStack.getLast?
    let us := g.undoStack ++ [current]
    applySnapshot now next
      { g with
        redoStack := g.redoStack.dropLast
        undoStack := if us.length > HISTORY_LIMIT then us.tail else us }

/-- A JavaScript JSON value, as produced by a successful `JSON.parse`. -/
inductive Json where
  | null
  | bool (b : Bool)
  | num (n : Int)
  | str (s : String)
  | arr (xs : List Json)
  | obj (fields : List (String × Json))

/-- JavaScript truthiness of a parsed JSON value. -/
def jsTruthy : Json → Bool
  | .null => false
  | .bool b => b
  | .num n => n != 0
  | .str s => s != ""
  | .arr _ => true
  | .obj _ => true

/-- `typeof parsed === 'object'` for a parsed JSON value (in JavaScript,
`null`, arrays and plain objects all have `typeof` `'object'`). -/
def jsTypeofObject : Json → Bool
  | .null => true
  | .arr _ => true
  | .obj _ => true
  | _ => false

/-- `loadState()`: `localStorage.getItem` is the `stored` argument
(`none` when the key is absent); `JSON.parse` is the `parse` argument,
whose exceptions are the `Except.error` case and are caught by the
surrounding `try`/`catch` that returns `null`.  `if (!raw) return null`
also treats an empty stored string as absent. -/
def loadState (stored : Option String) (parse : String → Except String Json) :
    Option Json :=
  match stored with
  | none => none
  | some raw =>
    if raw = "" then none
    else
      match parse raw with
      | .error _ => none
      | .ok parsed =>
        if jsTruthy parsed && jsTypeofObject parsed then some parsed else none

/-- `const TOTAL_PUZZLES = 3`. -/
def TOTAL_PUZZLES : Nat := 3

/-- `Math.max(1, Math.min(TOTAL_PUZZLES, Number(saved.image) || 1))`. -/
def clamp13 (n : Nat) : Nat := max 1 (min TOTAL_PUZZLES n)

/-- One entry of the per-puzzle `boards` map written by `saveState` (or
by the v1→v2 migration, which omits the three timer fields).  `pieces`
is `none` when the stored field is not an array; the `Option` timer
fields model the `"tElapsedMs" in boardTimer` presence checks. -/
structure BoardEntry where
  pieces : Option (List Nat)
  preview : Bool
  edges : Bool
  tElapsedMs : Option Nat
  tRunning : Option Bool
  tStartedAt : Option Nat
  ts : Nat
deriving DecidableEq

/-- The JSON state stored under `puzzle-state-v1`, in the typed shape
this program itself reads and writes.  `boards` is `none` when the
legacy v1 layout (no `boards` map) is stored; the `legacy*` fields are
the v1 top-level `pieces`/`preview`/`edges`. -/
structure SavedState where
  n : Nat
  image : Nat
  unlocked2 : Bool
  unlocked3 : Bool
  boards : Option (Nat → Option BoardEntry)
  legacyPieces : Option (List Nat)
  legacyPreview : Bool
  legacyEdges : Bool
  elapsedMs : Nat
  running : Bool
  startedAt : Option Nat
  ts : Nat

/-- `existing.boards && typeof existing.boards === 'object' ? existing.boards : {}`. -/
def boardsOf (st : SavedState) : Nat → Option BoardEntry :=
  match st.boards with
  | some b => b
  | none => fun _ => none

/-- `saveState()`: build the current puzzle's board entry, store it in
the `boards` map read back from storage (`loadState() || {}`) under the
key of `currentImage` without touching other keys, and write the new
top-level state (including the legacy/global timer fields). -/
def saveState (now : Nat) (g : GameState) (currentImage : Nat)
    (unlocked2 unlocked3 : Bool) (stored : Option SavedState) : SavedState :=
  let elapsed := if g.timerRunning then g.timerElapsedMs + (now - g.timerStartAt)
    else g.timerElapsedMs
  let boards0 : Nat → Option BoardEntry :=
    match stored with
    | some st => boardsOf st
    | none => fun _ => none
  let entry : BoardEntry :=
    { pieces := some g.tiles
      preview := g.preview
      edges := g.edges
      tElapsedMs := some elapsed
      tRunning := some g.timerRunning
      tStartedAt := if g.timerRunning then some g.timerStartAt else none
      ts := now }
  { n := N
    image := currentImage
    unlocked2 := unlocked2
    unlocked3 := unlocked3
    boards := some (fun k => if k = currentImage then some entry else boards0 k)
    legacyPieces := none
    legacyPreview := false
    legacyEdges := false
    elapsedMs := elapsed
    running := g.timerRunning
    startedAt := if g.timerRunning then some g.timerStartAt else none
    ts := now }

/-- The v1→v2 migration block of `createBoard` (`if (!saved.boards)`):
build a `boards` map holding the legacy single board (when its `pieces`
is a valid 100-entry array) under the clamped saved image key, and drop
the legacy top-level fields.  `ts: saved.ts || Date.now()`. -/
def migrate (now : Nat) (st : SavedState) : SavedState :=
  match st.boards with
  | some _ => st
  | none =>
    let img := clamp13 st.image
    let b : Nat → Option BoardEntry :=
      match st.legacyPieces with
      | some lp =>
        if lp.length = total then
          fun k => if k = img then
            some { pieces := some lp
                   preview := st.legacyPreview
                   edges := st.legacyEdges
                   tElapsedMs := none
                   tRunning := none
                   tStartedAt := none
                   ts := if st.ts = 0 then now else st.ts }
            else none
        else fun _ => none
      | none => fun _ => none
    { st with
      boards := some b
      legacyPieces := none
      legacyPreview := false
      legacyEdges := false }

/-- The game-relevant result of `createBoard()`: the rebuilt board, the
toggle and timer state, the active puzzle and unlock flags, and the
state written back to storage by the final `saveState()` call. -/
structure CreateResult where
  tiles : List Nat
  preview : Bool
  edges : Bool
  timerElapsedMs : Nat
  timerRunning : Bool
  timerStartAt : Nat
  currentImage : Nat
  unlocked2 : Bool
  unlocked3 : Bool
  stored : SavedState

/-- `createBoard()` run at time `now` with the DOM toggle state
`preview0`/`edges0`, the module variables `initialized`,
`currentImage0` and the unlock flags, and `stored` the current
localStorage content as read by `loadState()`.  Covers the saved-state
restore (with v1→v2 migration and per-puzzle/legacy timer fallback)
and the fresh-shuffle path; the trailing DOM loop assigns
`initialPieces[pos]` to the tile at each position, and the final
`saveState()` persists the result. -/
def createBoard (r : Nat → Nat → Nat) (now : Nat) (initialized : Bool)
    (currentImage0 : Nat) (unlocked2_0 unlocked3_0 preview0 edges0 : Bool)
    (stored : Option SavedState) : CreateResult :=
  match stored with
  | some saved0 =>
    if saved0.n = N then
      let saved := migrate now saved0
      let currentImage := if initialized then currentImage0 else clamp13 saved.image
      let boards := boardsOf saved
      let boardState := boards currentImage
      let restored : Option (List Nat × Bool × Bool) :=
        match boardState with
        | some e =>
          match e.pieces with
          | some ps => if ps.length = total then some (ps, e.preview, e.edges) else none
          | none => none
        | none => none
      let initialPieces :=
        match restored with
        | some (ps, _, _) => ps
        | none => shuffleUntilNotSolved r (List.range total)
      let preview :=
        match restored with
        | some (_, p, _) => p
        | none => false
      let edges :=
        match restored with
        | some (_, _, e) => e
        | none => false
      let timer : Nat × Bool × Nat :=
        match boardState with
        | some bt =>
          if bt.tElapsedMs.isSome || bt.tRunning.isSome then
            let tElapsed := bt.tElapsedMs.getD 0
            if bt.tRunning.getD false then (tElapsed, true, now) else (tElapsed, false, 0)
          else
            if saved.running then (saved.elapsedMs, true, now)
            else (saved.elapsedMs, false, 0)
        | none => (0, false, 0)
      let tiles := (List.range total).map fun pos => initialPieces.getD pos 0
      let g : GameState := ⟨tiles, preview, edges, timer.1, timer.2.1, timer.2.2, [], []⟩
      { tiles := tiles
        preview := preview
        edges := edges
        timerElapsedMs := timer.1
        timerRunning := timer.2.1
        timerStartAt := timer.2.2
        currentImage := currentImage
        unlocked2 := saved.unlocked2
        unlocked3 := saved.unlocked3
        stored := saveState now g currentImage saved.unlocked2 saved.unlocked3 (some saved) }
    else
      let initialPieces := shuffleUntilNotSolved r (List.range total)
      let tiles := (List.range total).map fun pos => initialPieces.getD pos 0
      let g : GameState := ⟨tiles, preview0, edges0, 0, false, 0, [], []⟩
      { tiles := tiles
        preview := preview0
        edges := edges0
        timerElapsedMs := 0
        timerRunning := false
        timerStartAt := 0
        currentImage := currentImage0
        unlocked2 := unlocked2_0
        unlocked3 := unlocked3_0
        stored := saveState now g currentImage0 unlocked2_0 unlocked3_0 stored }
  | none =>
    let initialPieces := shuffleUntilNotSolved r (List.range total)
    let tiles := (List.range total).map fun pos => initialPieces.getD pos 0
    let g : GameState := ⟨tiles, preview0, edges0, 0, false, 0, [], []⟩
    { tiles := tiles
      preview := preview0
      edges := edges0
      timerElapsedMs := 0
      timerRunning := false
      timerStartAt := 0
      currentImage := currentImage0
      unlocked2 := unlocked2_0
      unlocked3 := unlocked3_0
      stored := saveState now g currentImage0 unlocked2_0 unlocked3_0 stored }

/-- The join/corner CSS classes `updateJoins` manages on one tile. -/
structure JoinFlags where
  joinTop : Bool
  joinRight : Bool
  joinBottom : Bool
  joinLeft : Bool
  sharpTL : Bool
  sharpTR : Bool
  sharpBR : Bool
  sharpBL : Bool
deriving DecidableEq

/-- No join/corner classes — the state after the clearing loop at the
top of `updateJoins`. -/
def noJoins : JoinFlags := ⟨false, false, false, false, false, false, false, false⟩

/-- Update the class set of the tile at position `i`. -/
def updAt (f : Nat → JoinFlags) (i : Nat) (g : JoinFlags → JoinFlags) :
    Nat → JoinFlags :=
  fun q => if q = i then g (f i) else f q

/-- The body of the first `updateJoins` loop at position `pos`: the
right-neighbour check (`x < N - 1`, `p % N !== N - 1 && rp === p + 1`
adds `join-right`/`join-left`) followed by the bottom-neighbour check
(`y < N - 1`, `Math.floor(p / N) !== N - 1 && bp === p + N` adds
`join-bottom`/`join-top`). -/
def joinStepR (tiles : List Nat) (fl : Nat → JoinFlags) (pos : Nat) :
    Nat → JoinFlags :=
  if pos % N < N - 1 then
    if tiles.getD pos 0 % N ≠ N - 1 ∧
        tiles.getD (pos + 1) 0 = tiles.getD pos 0 + 1 then
      updAt (updAt fl pos fun f => { f with joinRight := true }) (pos + 1)
        fun f => { f with joinLeft := true }
    else fl
  else fl

/-- The bottom-neighbour half of the first `updateJoins` loop body. -/
def joinStepB (tiles : List Nat) (fl : Nat → JoinFlags) (pos : Nat) :
    Nat → JoinFlags :=
  if pos / N < N - 1 then
    if tiles.getD pos 0 / N ≠ N - 1 ∧
        tiles.getD (pos + N) 0 = tiles.getD pos 0 + N then
      updAt (updAt fl pos fun f => { f with joinBottom := true }) (pos + N)
        fun f => { f with joinTop := true }
    else fl
  else fl

/-- One iteration of the first `updateJoins` loop. -/
def joinStep (tiles : List Nat) (fl : Nat → JoinFlags) (pos : Nat) :
    Nat → JoinFlags :=
  joinStepB tiles (joinStepR tiles fl pos) pos

/-- The first `updateJoins` loop: `for (let pos = 0; pos < total; pos++)`
over the cleared class sets. -/
def joinPass (tiles : List Nat) : Nat → JoinFlags :=
  (List.range total).foldl (joinStep tiles) fun _ => noJoins

/-- `const ok = ...` of the corner loop: the eight join classes around
the inner vertex at the bottom-right of the tile `pos`. -/
def sharpOk (fl : Nat → JoinFlags) (pos : Nat) : Bool :=
  (fl pos).joinRight && (fl pos).joinBottom &&
  (fl (pos + 1)).joinLeft && (fl (pos + 1)).joinBottom &&
  (fl (pos + N)).joinTop && (fl (pos + N)).joinRight &&
  (fl (pos + N + 1)).joinTop && (fl (pos + N + 1)).joinLeft

/-- One iteration of the corner loop at vertex tile `pos = y * N + x`:
when `ok`, add the four `sharp-*` classes around the vertex. -/
def sharpStep (fl : Nat → JoinFlags) (pos : Nat) : Nat → JoinFlags :=
  if sharpOk fl pos then
    updAt (updAt (updAt (updAt fl pos fun f => { f with sharpBR := true })
      (pos + 1) fun f => { f with sharpBL := true })
      (pos + N) fun f => { f with sharpTR := true })
      (pos + N + 1) fun f => { f with sharpTL := true }
  else fl

/-- The nested corner loops:
`for (let y = 0; y < N - 1; y++) for (let x = 0; x < N - 1; x++)`. -/
def sharpPass (fl : Nat → JoinFlags) : Nat → JoinFlags :=
  (List.range (N - 1)).foldl
    (fun fl2 y => (List.range (N - 1)).foldl
      (fun fl3 x => sharpStep fl3 (y * N + x)) fl2) fl

/-- `updateJoins()`: clear all join/corner classes, run the
neighbour-join loop, then the inner-corner loop. -/
def updateJoins (tiles : List Nat) : Nat → JoinFlags :=
  sharpPass (joinPass tiles)

end Puzzle

namespace Puzzle

/-- C1: `isSolved` is true iff every position `p` of the 100-tile board
holds piece `p`, i.e. exactly when the board is reassembled in order. -/
theorem isSolved_iff (tiles : List Nat) (h : tiles.length = 100) :
    isSolved tiles = true ↔ ∀ p, p < 100 → tiles.getD p 0 = p := by
  unfold isSolved
  rw [List.all_eq_true]
  constructor
  · intro hall p hp
    have hp' : p < tiles.length := h ▸ hp
    have hmem : (p, tiles.get ⟨p, hp'⟩) ∈ tiles.enum := by
      rw [List.mem_enum_iff_getElem?]
      simp [List.getElem?_eq_getElem hp']
    have := hall _ hmem
    simpa [List.getD_eq_getElem?_getD, List.getElem?_eq_getElem hp'] using this
  · intro hpt x hx
    rw [List.mem_enum_iff_getElem?] at hx
    have hlt : x.1 < tiles.length := by
      by_contra hge
      rw [List.getElem?_eq_none (Nat.le_of_not_lt hge)] at hx
      exact Option.noConfusion hx
    have := hpt x.1 (h ▸ hlt)
    rw [List.getElem?_eq_getElem hlt] at hx
    rw [List.getD_eq_getElem?_getD, List.getElem?_eq_getElem hlt] at this
    simp only [Option.getD_some] at this
    have hx2 : x.2 = tiles[x.1] := by
      injection hx with hx
      exact hx.symm
    simp [hx2, this]

/-- Closed witness for C1 at a concrete solved board. -/
theorem isSolved_iff_witness :
    (List.range 100).length = 100 ∧
      (isSolved (List.range 100) = true ↔
        ∀ p, p < 100 → (List.range 100).getD p 0 = p) :=
  ⟨by simp, isSolved_iff (List.range 100) (by simp)⟩

/-- C2: dropping one tile onto a different one swaps exactly the two
pieces: position `a` gets the old piece of `b`, position `b` the old
piece of `a`, and every other position keeps its piece. -/
theorem swapTilePieces_spec (tiles : List Nat) (a b : Nat)
    (ha : a < tiles.length) (hb : b < tiles.length) (hab : a ≠ b) :
    (swapTilePieces tiles a b).getD a 0 = tiles.getD b 0 ∧
    (swapTilePieces tiles a b).getD b 0 = tiles.getD a 0 ∧
    ∀ c, c ≠ a → c ≠ b → (swapTilePieces tiles a b).getD c 0 = tiles.getD c 0 := by
  unfold swapTilePieces
  simp only [List.getD_eq_getElem?_getD]
  refine ⟨?_, ?_, ?_⟩
  · rw [List.getElem?_set_ne (fun h => hab h.symm), List.getElem?_set_self ha]
    simp [List.getElem?_eq_getElem ha, List.getElem?_eq_getElem hb,
      List.getD_eq_getElem?_getD]
  · rw [List.getElem?_set_self (by simpa using hb)]
    simp [List.getElem?_eq_getElem ha, List.getD_eq_getElem?_getD]
  · intro c hca hcb
    rw [List.getElem?_set_ne (fun h => hcb h.symm),
      List.getElem?_set_ne (fun h => hca h.symm)]

/-- Writing back the element already at a position leaves the list unchanged. -/
lemma listSet_getElem_self (l : List Nat) (i : Nat) (hi : i < l.length) :
    l.set i l[i] = l := by
  apply List.ext_getElem?
  intro n
  rcases eq_or_ne n i with h | h
  · subst h
    rw [List.getElem?_set_self hi, List.getElem?_eq_getElem hi]
  · rw [List.getElem?_set_ne (fun hh => h hh.symm)]

/-- Swapping two in-range positions permutes the list. -/
lemma listSwap_perm (l : List Nat) (i j : Nat) (hi : i < l.length)
    (hj : j < l.length) : List.Perm (listSwap l i j) l := by
  rw [List.perm_iff_count]
  intro x
  unfold listSwap
  have hj2 : j < (l.set i (l.getD j 0)).length := by simpa using hj
  rw [List.count_set _ _ _ _ hj2, List.count_set _ _ _ _ hi]
  have hdi : l.getD i 0 = l[i] := by
    simp [List.getD_eq_getElem?_getD, List.getElem?_eq_getElem hi]
  have hdj : l.getD j 0 = l[j] := by
    simp [List.getD_eq_getElem?_getD, List.getElem?_eq_getElem hj]
  have hgj : (l.set i (l.getD j 0))[j] = l[j] := by
    rcases eq_or_ne i j with h | h
    · subst h
      rw [List.getElem_set_self, hdi]
    · rw [List.getElem_set_ne h]
  rw [hgj, hdi, hdj]
  have hui : (if (l[i] == x) = true then 1 else 0) ≤ l.count x := by
    by_cases hx : l[i] = x
    · simpa [hx] using (hx ▸ List.getElem_mem hi : x ∈ l)
    · simp [hx]
  by_cases hx : l[i] = x <;> by_cases hy : l[j] = x <;> simp_all

/-- The shuffle loop permutes the list when the counter is in range. -/
lemma shuffleAux_perm (r : Nat → Nat) :
    ∀ c l, c < l.length → List.Perm (shuffleAux r c l) l := by
  intro c
  induction c with
  | zero => intro l _; exact List.Perm.refl l
  | succ c ih =>
    intro l h
    have hj : r (c + 1) % (c + 2) < l.length :=
      lt_of_le_of_lt (Nat.le_of_lt_succ (Nat.mod_lt _ (Nat.succ_pos _))) h
    have hswap : List.Perm (listSwap l (c + 1) (r (c + 1) % (c + 2))) l :=
      listSwap_perm l _ _ h hj
    have hc : c < (listSwap l (c + 1) (r (c + 1) % (c + 2))).length := by
      rw [hswap.length_eq]
      exact Nat.lt_of_succ_lt h
    exact (ih _ hc).trans hswap

/-- `shuffleInPlace` permutes its input for every draw sequence. -/
lemma shuffleInPlace_perm (r : Nat → Nat) (l : List Nat) :
    List.Perm (shuffleInPlace r l) l := by
  unfold shuffleInPlace
  cases l with
  | nil => exact List.Perm.refl _
  | cons a t =>
    exact shuffleAux_perm r _ _ (by simp)

/-- The retry loop permutes its input for every draw sequence. -/
lemma shuffleGo_perm (r : Nat → Nat → Nat) :
    ∀ left a l, List.Perm (shuffleGo r a left l) l := by
  intro left
  induction left with
  | zero => intro a l; exact List.Perm.refl l
  | succ left ih =>
    intro a l
    show List.Perm (if left = 0 then shuffleInPlace (r a) l
      else if (shuffleInPlace (r a) l).enum.all (fun p => p.2 == p.1) then
        shuffleGo r (a + 1) left (shuffleInPlace (r a) l)
      else shuffleInPlace (r a) l) l
    split
    · exact shuffleInPlace_perm _ l
    · split
      · exact (ih _ _).trans (shuffleInPlace_perm _ l)
      · exact shuffleInPlace_perm _ l

/-- C3: `shuffleInPlace` and `shuffleUntilNotSolved` return a
permutation of their input for every sequence of random draws; in
particular a fresh board assignment is a permutation of the piece
indices `0 .. 99`. -/
theorem shuffle_perm (r1 : Nat → Nat) (r : Nat → Nat → Nat) (l : List Nat) :
    List.Perm (shuffleInPlace r1 l) l ∧ List.Perm (shuffleUntilNotSolved r l) l ∧
      List.Perm (shuffleUntilNotSolved r (List.range total)) (List.range total) :=
  ⟨shuffleInPlace_perm r1 l, shuffleGo_perm r 6 0 l, shuffleGo_perm r 6 0 _⟩

/-- With draws that pick `j = i` at every step, each swap is a no-op. -/
lemma listSwap_self (l : List Nat) (i : Nat) (hi : i < l.length) :
    listSwap l i i = l := by
  unfold listSwap
  have hdi : l.getD i 0 = l[i] := by
    simp [List.getD_eq_getElem?_getD, List.getElem?_eq_getElem hi]
  rw [hdi, listSet_getElem_self _ _ hi, listSet_getElem_self _ _ (by simpa using hi)]

/-- With identity draws the shuffle loop leaves the list unchanged. -/
lemma shuffleAux_id : ∀ c l, c < l.length → shuffleAux (fun i => i) c l = l := by
  intro c
  induction c with
  | zero => intro l _; rfl
  | succ c ih =>
    intro l h
    show shuffleAux (fun i => i) c (listSwap l (c + 1) ((c + 1) % (c + 2))) = l
    rw [Nat.mod_eq_of_lt (Nat.lt_succ_self _), listSwap_self l _ h]
    exact ih l (Nat.lt_of_succ_lt h)

/-- With identity draws `shuffleInPlace` is the identity. -/
lemma shuffleInPlace_id (l : List Nat) : shuffleInPlace (fun i => i) l = l := by
  unfold shuffleInPlace
  cases l with
  | nil => rfl
  | cons a t => exact shuffleAux_id _ _ (by simp)

/-- With identity draws the whole retry loop returns its input. -/
lemma shuffleGo_id (l : List Nat) (hsolved : (l.enum.all fun p => p.2 == p.1) = true) :
    ∀ left a, shuffleGo (fun _ i => i) a left l = l := by
  intro left
  induction left with
  | zero => intro a; rfl
  | succ left ih =>
    intro a
    show (if left = 0 then shuffleInPlace (fun i => i) l
      else if (shuffleInPlace (fun i => i) l).enum.all (fun p => p.2 == p.1) then
        shuffleGo (fun _ i => i) (a + 1) left (shuffleInPlace (fun i => i) l)
      else shuffleInPlace (fun i => i) l) = l
    rw [shuffleInPlace_id, hsolved]
    split
    · rfl
    · simpa using ih (a + 1)

/-- C4 counterexample: there is a sequence of random draws (every draw
picking `j = i`) for which `shuffleUntilNotSolved` applied to the fresh
board arrangement `0 .. 99` returns the solved order — the `attempts > 5`
bail-out gives up re-shuffling, so a fresh board can start solved. -/
theorem shuffleUntilNotSolved_solved_counterexample :
    isSolved (shuffleUntilNotSolved (fun _ i => i) (List.range total)) = true := by
  have h100 : (List.range total) = List.range 100 := rfl
  have hsolved : ((List.range 100).enum.all fun p => p.2 == p.1) = true := by decide
  unfold shuffleUntilNotSolved
  rw [h100, shuffleGo_id _ hsolved 6 0]
  exact hsolved

/-- The first pass is one `shuffleInPlace` with the draws of attempt `a`. -/
lemma shufflePasses_one (r : Nat → Nat → Nat) (a : Nat) (l : List Nat) :
    shufflePasses r a l 1 = shuffleInPlace (r a) l := rfl

/-- Re-indexing the passes after the first shuffle. -/
lemma shufflePasses_shift (r : Nat → Nat → Nat) (a : Nat) (l : List Nat) :
    ∀ k, shufflePasses r a l (k + 1) =
      shufflePasses r (a + 1) (shuffleInPlace (r a) l) k := by
  intro k
  induction k with
  | zero => rfl
  | succ k ih =>
    show shuffleInPlace (r (a + (k + 1))) (shufflePasses r a l (k + 1)) =
      shuffleInPlace (r (a + 1 + k)) (shufflePasses r (a + 1) (shuffleInPlace (r a) l) k)
    rw [ih, show a + (k + 1) = a + 1 + k by omega]

/-- The retry loop returns a solved arrangement exactly when every pass
it is allowed to perform yields the solved arrangement. -/
lemma shuffleGo_solved_iff (r : Nat → Nat → Nat) :
    ∀ left a l, (isSolved (shuffleGo r a (left + 1) l) = true ↔
      ∀ k, 1 ≤ k → k ≤ left + 1 → isSolved (shufflePasses r a l k) = true) := by
  intro left
  induction left with
  | zero =>
    intro a l
    show isSolved (shuffleInPlace (r a) l) = true ↔ _
    constructor
    · intro h k h1 h2
      have hk : k = 1 := by omega
      subst hk
      rw [shufflePasses_one]
      exact h
    · intro H
      have h1 := H 1 (by omega) (by omega)
      rwa [shufflePasses_one] at h1
  | succ left ih =>
    intro a l
    show isSolved (if left + 1 = 0 then shuffleInPlace (r a) l
      else if (shuffleInPlace (r a) l).enum.all (fun p => p.2 == p.1) then
        shuffleGo r (a + 1) (left + 1) (shuffleInPlace (r a) l)
      else shuffleInPlace (r a) l) = true ↔ _
    rw [if_neg (Nat.succ_ne_zero left)]
    by_cases hs : ((shuffleInPlace (r a) l).enum.all fun p => p.2 == p.1) = true
    · rw [if_pos hs, ih (a + 1) (shuffleInPlace (r a) l)]
      constructor
      · intro H k h1 h2
        cases k with
        | zero => exact absurd h1 (by omega)
        | succ k2 =>
          cases k2 with
          | zero =>
            rw [shufflePasses_one]
            exact hs
          | succ k3 =>
            rw [shufflePasses_shift]
            exact H (k3 + 1) (by omega) (by omega)
      · intro H k h1 h2
        rw [← shufflePasses_shift]
        exact H (k + 1) (by omega) (by omega)
    · rw [if_neg hs]
      constructor
      · intro h
        exact absurd h hs
      · intro H
        have h1 := H 1 (by omega) (by omega)
        rw [shufflePasses_one] at h1
        exact absurd h1 hs

/-- C4 (amended): because of the `attempts > 5` bail-out, the result of
`shuffleUntilNotSolved` is the solved order exactly when every one of
the six shuffle passes it performs yields the solved arrangement; in
every other case — in particular whenever any of the first five passes
is not the identity — the returned arrangement is not the solved order. -/
theorem shuffleUntilNotSolved_solved_iff (r : Nat → Nat → Nat) (l : List Nat) :
    isSolved (shuffleUntilNotSolved r l) = true ↔
      ∀ k, 1 ≤ k → k ≤ 6 → isSolved (shufflePasses r 0 l k) = true :=
  shuffleGo_solved_iff r 5 0 l

/-- Closed witness for C4 (amended) at concrete draws and input. -/
theorem shuffleUntilNotSolved_solved_iff_witness :
    isSolved (shuffleUntilNotSolved (fun _ i => i) [0, 1]) = true :=
  (shuffleUntilNotSolved_solved_iff (fun _ i => i) [0, 1]).mpr
    (by intro k h1 h6; interval_cases k <;> decide)

/-- `total` evaluates to 100. -/
lemma total_eq : total = 100 := rfl

/-- Reading every position of a list back out of itself reproduces it. -/
lemma range_map_getD (ps : List Nat) :
    (List.range ps.length).map (fun pos => ps.getD pos 0) = ps := by
  apply List.ext_getElem
  · simp
  · intro i h1 h2
    simp [List.getD_eq_getElem?_getD, List.getElem?_eq_getElem h2]

/-- After a push (with the over-limit shift) the pushed element is the
top of the stack. -/
lemma getLast?_limit (l : List Snapshot) (x : Snapshot) :
    (if (l ++ [x]).length > HISTORY_LIMIT then (l ++ [x]).tail
     else l ++ [x]).getLast? = some x := by
  split
  · rename_i h
    cases l with
    | nil => simp [HISTORY_LIMIT] at h
    | cons a t =>
      show (((a :: t) ++ [x]).tail).getLast? = some x
      rw [List.cons_append, List.tail_cons]
      exact List.getLast?_concat t
  · exact List.getLast?_concat l

/-- `applySnapshot` never changes the number of tiles. -/
lemma applySnapshot_tiles_length (now : Nat) (snap : Option Snapshot)
    (g : GameState) : (applySnapshot now snap g).tiles.length = g.tiles.length := by
  cases snap with
  | none => rfl
  | some s =>
    cases hs : s.pieces with
    | none => simp [applySnapshot, hs]
    | some ps =>
      by_cases hc : ps.length ≠ total
      · simp [applySnapshot, hs, hc]
      · simp [applySnapshot, hs, hc]

/-- `applySnapshot` never touches the history stacks. -/
lemma applySnapshot_stacks (now : Nat) (snap : Option Snapshot) (g : GameState) :
    (applySnapshot now snap g).undoStack = g.undoStack ∧
      (applySnapshot now snap g).redoStack = g.redoStack := by
  cases snap with
  | none => exact ⟨rfl, rfl⟩
  | some s =>
    cases hs : s.pieces with
    | none => simp [applySnapshot, hs]
    | some ps =>
      by_cases hc : ps.length ≠ total
      · simp [applySnapshot, hs, hc]
      · simp [applySnapshot, hs, hc]

/-- C9: `applySnapshot` is atomic.  A `null` snapshot, a snapshot whose
`pieces` is not an array, or one whose `pieces` does not hold exactly
100 entries leaves the entire game state (tiles, toggles, timer and the
history stacks) unchanged; a valid snapshot is applied in full. -/
theorem applySnapshot_atomic (now : Nat) (snap : Option Snapshot) (g : GameState) :
    ((snap = none ∨ ∃ s, snap = some s ∧
        (s.pieces = none ∨ ∃ ps, s.pieces = some ps ∧ ps.length ≠ 100)) →
      applySnapshot now snap g = g) ∧
    (∀ s ps, snap = some s → s.pieces = some ps → ps.length = 100 →
      g.tiles.length = 100 →
      ((applySnapshot now snap g).tiles = ps ∧
        (applySnapshot now snap g).preview = s.preview ∧
        (applySnapshot now snap g).edges = s.edges ∧
        (applySnapshot now snap g).timerRunning = s.running ∧
        (applySnapshot now snap g).timerElapsedMs = (max 0 s.elapsedMs).toNat ∧
        (applySnapshot now snap g).timerStartAt = (if s.running then now else 0) ∧
        (applySnapshot now snap g).undoStack = g.undoStack ∧
        (applySnapshot now snap g).redoStack = g.redoStack)) := by
  constructor
  · rintro (rfl | ⟨s, rfl, hbad⟩)
    · rfl
    · rcases hbad with hnone | ⟨ps, hps, hlen⟩
      · show (match s.pieces with
          | none => g
          | some ps => if ps.length ≠ total then g else _) = g
        rw [hnone]
      · show (match s.pieces with
          | none => g
          | some ps => if ps.length ≠ total then g else _) = g
        rw [hps]
        exact if_pos (by rw [total_eq]; exact hlen)
  · rintro s ps rfl hps hlen htiles
    have hcond : ¬ ps.length ≠ total := by rw [total_eq]; exact fun h => h hlen
    have hred : applySnapshot now (some s) g =
        { g with
          tiles := (List.range g.tiles.length).map fun pos => ps.getD pos 0
          preview := s.preview
          edges := s.edges
          timerElapsedMs := (max 0 s.elapsedMs).toNat
          timerRunning := s.running
          timerStartAt := if s.running then now else 0 } := by
      show (match s.pieces with
        | none => g
        | some ps => if ps.length ≠ total then g else _) = _
      rw [hps]
      exact if_neg hcond
    rw [hred]
    refine ⟨?_, rfl, rfl, rfl, rfl, rfl, rfl, rfl⟩
    show (List.range g.tiles.length).map (fun pos => ps.getD pos 0) = ps
    rw [htiles, ← hlen, range_map_getD]

/-- Closed witness for C9: a `null` snapshot changes nothing. -/
theorem applySnapshot_atomic_witness :
    applySnapshot 0 none ⟨[], false, false, 0, false, 0, [], []⟩ =
      ⟨[], false, false, 0, false, 0, [], []⟩ :=
  (applySnapshot_atomic 0 none ⟨[], false, false, 0, false, 0, [], []⟩).1 (Or.inl rfl)

/-- Reduction of `applySnapshot` on a valid snapshot. -/
lemma applySnapshot_valid (now : Nat) (s : Snapshot) (ps : List Nat)
    (g : GameState) (hps : s.pieces = some ps) (hlen : ps.length = 100) :
    applySnapshot now (some s) g =
      { g with
        tiles := (List.range g.tiles.length).map fun pos => ps.getD pos 0
        preview := s.preview
        edges := s.edges
        timerElapsedMs := (max 0 s.elapsedMs).toNat
        timerRunning := s.running
        timerStartAt := if s.running then now else 0 } := by
  have hcond : ¬ ps.length ≠ total := by rw [total_eq]; exact fun h => h hlen
  show (match s.pieces with
    | none => g
    | some ps => if ps.length ≠ total then g else _) = _
  rw [hps]
  exact if_neg hcond

/-- C5: on a non-empty undo stack, `doUndo` pops the most recently
pushed snapshot, restores the board to exactly that snapshot's piece
assignment, preview/edge toggles and elapsed timer value, and pushes
the pre-undo state on top of the redo stack. -/
theorem doUndo_spec (now : Nat) (g : GameState) (prev : Snapshot) (ps : List Nat)
    (hne : g.undoStack ≠ [])
    (hlast : g.undoStack.getLast? = some prev)
    (hps : prev.pieces = some ps) (hlen : ps.length = 100)
    (htiles : g.tiles.length = 100) (hpos : 0 ≤ prev.elapsedMs) :
    (doUndo now g).tiles = ps ∧
    (doUndo now g).preview = prev.preview ∧
    (doUndo now g).edges = prev.edges ∧
    (doUndo now g).timerElapsedMs = prev.elapsedMs.toNat ∧
    (doUndo now g).timerRunning = prev.running ∧
    (doUndo now g).undoStack = g.undoStack.dropLast ∧
    (doUndo now g).redoStack.getLast? = some (getSnapshot now g) := by
  have hred : doUndo now g = applySnapshot now (some prev)
      { g with
        undoStack := g.undoStack.dropLast
        redoStack :=
          if (g.redoStack ++ [getSnapshot now g]).length > HISTORY_LIMIT then
            (g.redoStack ++ [getSnapshot now g]).tail
          else g.redoStack ++ [getSnapshot now g] } := by
    unfold doUndo
    rw [if_neg hne, hlast]
  rw [hred, applySnapshot_valid now prev ps _ hps hlen]
  refine ⟨?_, rfl, rfl, ?_, rfl, rfl, ?_⟩
  · show (List.range g.tiles.length).map (fun pos => ps.getD pos 0) = ps
    rw [htiles, ← hlen, range_map_getD]
  · show (max 0 prev.elapsedMs).toNat = prev.elapsedMs.toNat
    rw [max_eq_right hpos]
  · exact getLast?_limit _ _

/-- Closed witness for C5 on a concrete one-entry undo stack. -/
theorem doUndo_spec_witness :
    (doUndo 3 ⟨List.range 100, true, false, 9, false, 0,
        [⟨some (List.map (fun i => 99 - i) (List.range 100)), false, true, 5, false⟩],
        []⟩).tiles = List.map (fun i => 99 - i) (List.range 100) ∧
    (doUndo 3 ⟨List.range 100, true, false, 9, false, 0,
        [⟨some (List.map (fun i => 99 - i) (List.range 100)), false, true, 5, false⟩],
        []⟩).preview = false ∧
    (doUndo 3 ⟨List.range 100, true, false, 9, false, 0,
        [⟨some (List.map (fun i => 99 - i) (List.range 100)), false, true, 5, false⟩],
        []⟩).edges = true ∧
    (doUndo 3 ⟨List.range 100, true, false, 9, false, 0,
        [⟨some (List.map (fun i => 99 - i) (List.range 100)), false, true, 5, false⟩],
        []⟩).timerElapsedMs = (5 : Int).toNat ∧
    (doUndo 3 ⟨List.range 100, true, false, 9, false, 0,
        [⟨some (List.map (fun i => 99 - i) (List.range 100)), false, true, 5, false⟩],
        []⟩).timerRunning = false ∧
    (doUndo 3 ⟨List.range 100, true, false, 9, false, 0,
        [⟨some (List.map (fun i => 99 - i) (List.range 100)), false, true, 5, false⟩],
        []⟩).undoStack =
      ([⟨some (List.map (fun i => 99 - i) (List.range 100)), false, true, 5, false⟩] :
        List Snapshot).dropLast ∧
    (doUndo 3 ⟨List.range 100, true, false, 9, false, 0,
        [⟨some (List.map (fun i => 99 - i) (List.range 100)), false, true, 5, false⟩],
        []⟩).redoStack.getLast? =
      some (getSnapshot 3 ⟨List.range 100, true, false, 9, false, 0,
        [⟨some (List.map (fun i => 99 - i) (List.range 100)), false, true, 5, false⟩],
        []⟩) :=
  doUndo_spec 3 _ _ _ (by decide) (by rfl) (by rfl) (by simp) (by simp) (by decide)

/-- Round trip of `applySnapshot` after `getSnapshot`: applying a
snapshot taken at `t1` restores the observable state captured at `t1`,
whatever state it is applied over. -/
lemma getSnapshot_applySnapshot (t1 t2 : Nat) (g h : GameState)
    (htiles : g.tiles.length = 100) (hh : h.tiles.length = 100) :
    getSnapshot t2 (applySnapshot t2 (some (getSnapshot t1 g)) h) =
      getSnapshot t1 g := by
  rw [applySnapshot_valid t2 (getSnapshot t1 g) g.tiles h rfl htiles]
  have htl : List.map (fun pos => g.tiles[pos]?.getD 0) (List.range h.tiles.length) = g.tiles := by
    rw [hh, ← htiles]
    simpa [List.getD_eq_getElem?_getD] using range_map_getD g.tiles
  cases hrun : g.timerRunning <;> simp [getSnapshot, hrun, htl, Nat.sub_self]
  omega

/-- C6: with a non-empty undo stack, `doRedo` right after `doUndo`
restores the piece assignment, the toggle states, and the observable
elapsed timer value exactly as they were before the undo. -/
theorem undoRedo_roundtrip (t1 t2 : Nat) (g : GameState)
    (hne : g.undoStack ≠ []) (htiles : g.tiles.length = 100) :
    getSnapshot t2 (doRedo t2 (doUndo t1 g)) = getSnapshot t1 g := by
  have hg1tiles : (doUndo t1 g).tiles.length = 100 := by
    unfold doUndo
    rw [if_neg hne, applySnapshot_tiles_length]
    exact htiles
  have hg1redo : (doUndo t1 g).redoStack.getLast? = some (getSnapshot t1 g) := by
    unfold doUndo
    rw [if_neg hne, (applySnapshot_stacks _ _ _).2]
    exact getLast?_limit _ _
  have hg1ne : (doUndo t1 g).redoStack ≠ [] := by
    intro h
    rw [h] at hg1redo
    exact Option.noConfusion hg1redo
  have hred : doRedo t2 (doUndo t1 g) =
      applySnapshot t2 (some (getSnapshot t1 g))
        { doUndo t1 g with
          redoStack := (doUndo t1 g).redoStack.dropLast
          undoStack :=
            if ((doUndo t1 g).undoStack ++ [getSnapshot t2 (doUndo t1 g)]).length >
                HISTORY_LIMIT then
              ((doUndo t1 g).undoStack ++ [getSnapshot t2 (doUndo t1 g)]).tail
            else (doUndo t1 g).undoStack ++ [getSnapshot t2 (doUndo t1 g)] } := by
    unfold doRedo
    rw [if_neg hg1ne, hg1redo]
  rw [hred]
  exact getSnapshot_applySnapshot t1 t2 g _ htiles hg1tiles

/-- Closed witness for C6 at a concrete state and two times. -/
theorem undoRedo_roundtrip_witness :
    getSnapshot 7 (doRedo 7 (doUndo 5 ⟨List.range 100, true, false, 3, true, 2,
        [⟨some (List.range 100), false, false, 0, false⟩], []⟩)) =
      getSnapshot 5 ⟨List.range 100, true, false, 3, true, 2,
        [⟨some (List.range 100), false, false, 0, false⟩], []⟩ :=
  undoRedo_roundtrip 5 7 _ (by decide) (by simp)

/-- C10: `loadState` never propagates an exception: an absent (or
empty) stored value, a raw string on which `JSON.parse` throws, and a
parsed value that is not an object all yield `null`; a parsed array or
object is returned as is. -/
theorem loadState_never_throws (stored : Option String)
    (parse : String → Except String Json) :
    (stored = none → loadState stored parse = none) ∧
    (∀ raw, stored = some raw → raw = "" → loadState stored parse = none) ∧
    (∀ raw e, stored = some raw → parse raw = .error e →
      loadState stored parse = none) ∧
    (∀ raw v, stored = some raw → parse raw = .ok v →
      (((∃ xs, v = .arr xs) ∨ ∃ fs, v = .obj fs) → raw ≠ "" →
        loadState stored parse = some v) ∧
      ((∀ xs, v ≠ .arr xs) → (∀ fs, v ≠ .obj fs) →
        loadState stored parse = none)) := by
  have hsome : ∀ raw, loadState (some raw) parse =
      if raw = "" then none
      else match parse raw with
        | .error _ => none
        | .ok parsed =>
          if jsTruthy parsed && jsTypeofObject parsed then some parsed else none :=
    fun _ => rfl
  refine ⟨?_, ?_, ?_, ?_⟩
  · rintro rfl
    rfl
  · rintro raw rfl rfl
    simp [hsome]
  · rintro raw e rfl hp
    rw [hsome]
    split
    · rfl
    · rw [hp]
  · rintro raw v rfl hp
    constructor
    · rintro hobj hraw
      rw [hsome, if_neg hraw, hp]
      rcases hobj with ⟨xs, rfl⟩ | ⟨fs, rfl⟩ <;> rfl
    · intro harr hobj
      rw [hsome]
      split
      · rfl
      · rw [hp]
        cases v with
        | arr xs => exact absurd rfl (harr xs)
        | obj fs => exact absurd rfl (hobj fs)
        | null => rfl
        | bool b => simp [jsTruthy, jsTypeofObject]
        | num n => simp [jsTruthy, jsTypeofObject]
        | str s => simp [jsTruthy, jsTypeofObject]

/-- Closed witness for C10: a parsed object round-trips. -/
theorem loadState_never_throws_witness :
    loadState (some "x") (fun _ => Except.ok (Json.obj [])) = some (Json.obj []) :=
  ((loadState_never_throws (some "x") (fun _ => Except.ok (Json.obj []))).2.2.2 "x"
    (Json.obj []) rfl rfl).1 (Or.inr ⟨[], rfl⟩) (by decide)

/-- After `saveState`, re-running `createBoard` for the same puzzle (a
reload: `initialized = false`) restores the saved pieces and toggles. -/
lemma createBoard_after_save (r : Nat → Nat → Nat) (now now2 : Nat)
    (g : GameState) (cur : Nat) (u2 u3 : Bool) (stored : Option SavedState)
    (img0 : Nat) (u2b u3b p0 e0 : Bool)
    (htiles : g.tiles.length = 100) (hcur1 : 1 ≤ cur) (hcur3 : cur ≤ TOTAL_PUZZLES) :
    (createBoard r now2 false img0 u2b u3b p0 e0
        (some (saveState now g cur u2 u3 stored))).tiles = g.tiles ∧
    (createBoard r now2 false img0 u2b u3b p0 e0
        (some (saveState now g cur u2 u3 stored))).preview = g.preview ∧
    (createBoard r now2 false img0 u2b u3b p0 e0
        (some (saveState now g cur u2 u3 stored))).edges = g.edges ∧
    (createBoard r now2 false img0 u2b u3b p0 e0
        (some (saveState now g cur u2 u3 stored))).currentImage = cur := by
  have hclamp : clamp13 cur = cur := by
    unfold clamp13 TOTAL_PUZZLES
    unfold TOTAL_PUZZLES at hcur3
    omega
  have htl : List.map (fun pos => g.tiles[pos]?.getD 0) (List.range 100) = g.tiles := by
    conv_lhs => rw [← htiles]
    simpa [List.getD_eq_getElem?_getD] using range_map_getD g.tiles
  simp [createBoard, migrate, boardsOf, saveState, hclamp, total_eq, htiles, htl]

/-- C7: `saveState` stores the current pieces, toggles and elapsed
timer under the current puzzle's key of the `boards` map, leaves every
other puzzle's entry untouched, and a subsequent `createBoard` for the
same puzzle (after a reload) restores exactly the saved pieces and
toggles. -/
theorem saveState_createBoard_roundtrip (r : Nat → Nat → Nat) (now now2 : Nat)
    (g : GameState) (cur : Nat) (u2 u3 : Bool) (stored : Option SavedState)
    (img0 : Nat) (u2b u3b p0 e0 : Bool)
    (htiles : g.tiles.length = 100) (hcur1 : 1 ≤ cur) (hcur3 : cur ≤ TOTAL_PUZZLES) :
    ∃ b1, (saveState now g cur u2 u3 stored).boards = some b1 ∧
      (∃ entry, b1 cur = some entry ∧ entry.pieces = some g.tiles ∧
        entry.preview = g.preview ∧ entry.edges = g.edges ∧
        entry.tElapsedMs = some (if g.timerRunning then
          g.timerElapsedMs + (now - g.timerStartAt) else g.timerElapsedMs)) ∧
      (∀ k, k ≠ cur → ∀ st0 b0, stored = some st0 → st0.boards = some b0 →
        b1 k = b0 k) ∧
      ((createBoard r now2 false img0 u2b u3b p0 e0
          (some (saveState now g cur u2 u3 stored))).tiles = g.tiles ∧
        (createBoard r now2 false img0 u2b u3b p0 e0
          (some (saveState now g cur u2 u3 stored))).preview = g.preview ∧
        (createBoard r now2 false img0 u2b u3b p0 e0
          (some (saveState now g cur u2 u3 stored))).edges = g.edges ∧
        (createBoard r now2 false img0 u2b u3b p0 e0
          (some (saveState now g cur u2 u3 stored))).currentImage = cur) := by
  refine ⟨_, rfl, ⟨⟨some g.tiles, g.preview, g.edges,
      some (if g.timerRunning then g.timerElapsedMs + (now - g.timerStartAt)
        else g.timerElapsedMs),
      some g.timerRunning,
      if g.timerRunning then some g.timerStartAt else none, now⟩,
    by simp [saveState], rfl, rfl, rfl, rfl⟩, ?_, ?_⟩
  · intro k hk st0 b0 h1 h2
    subst h1
    show (if k = cur then _ else boardsOf st0 k) = b0 k
    rw [if_neg hk]
    unfold boardsOf
    rw [h2]
  · exact createBoard_after_save r now now2 g cur u2 u3 stored img0 u2b u3b p0 e0
      htiles hcur1 hcur3

/-- Closed witness for C7 at a concrete state, puzzle 2, empty storage. -/
theorem saveState_createBoard_roundtrip_witness :
    ∃ b1, (saveState 11 ⟨List.range 100, true, false, 4, false, 0, [], []⟩ 2 true false
        none).boards = some b1 ∧
      (∃ entry, b1 2 = some entry ∧ entry.pieces = some (List.range 100) ∧
        entry.preview = true ∧ entry.edges = false ∧ entry.tElapsedMs = some 4) ∧
      (∀ k, k ≠ 2 → ∀ st0 b0, (none : Option SavedState) = some st0 →
        st0.boards = some b0 → b1 k = b0 k) ∧
      ((createBoard (fun _ i => i) 7 false 1 false false false false
          (some (saveState 11 ⟨List.range 100, true, false, 4, false, 0, [], []⟩ 2 true
            false none))).tiles = List.range 100 ∧
        (createBoard (fun _ i => i) 7 false 1 false false false false
          (some (saveState 11 ⟨List.range 100, true, false, 4, false, 0, [], []⟩ 2 true
            false none))).preview = true ∧
        (createBoard (fun _ i => i) 7 false 1 false false false false
          (some (saveState 11 ⟨List.range 100, true, false, 4, false, 0, [], []⟩ 2 true
            false none))).edges = false ∧
        (createBoard (fun _ i => i) 7 false 1 false false false false
          (some (saveState 11 ⟨List.range 100, true, false, 4, false, 0, [], []⟩ 2 true
            false none))).currentImage = 2) :=
  saveState_createBoard_roundtrip (fun _ i => i) 11 7
    ⟨List.range 100, true, false, 4, false, 0, [], []⟩ 2 true false none 1 false false
    false false (by simp) (by decide) (by decide)

/-- Closed witness for C2 on a concrete 3-tile swap. -/
theorem swapTilePieces_spec_witness :
    (swapTilePieces [5, 6, 7] 0 2).getD 0 0 = [5, 6, 7].getD 2 0 ∧
    (swapTilePieces [5, 6, 7] 0 2).getD 2 0 = [5, 6, 7].getD 0 0 ∧
    ∀ c, c ≠ 0 → c ≠ 2 → (swapTilePieces [5, 6, 7] 0 2).getD c 0 = [5, 6, 7].getD c 0 :=
  swapTilePieces_spec [5, 6, 7] 0 2 (by decide) (by decide) (by decide)

/-- The right-neighbour half sets `join-right` exactly at the loop
position when its condition holds. -/
lemma joinStepR_joinRight (tiles : List Nat) (fl : Nat → JoinFlags) (pos q : Nat) :
    (joinStepR tiles fl pos q).joinRight = true ↔
      ((fl q).joinRight = true ∨
        (q = pos ∧ pos % N < N - 1 ∧ tiles.getD pos 0 % N ≠ N - 1 ∧
          tiles.getD (pos + 1) 0 = tiles.getD pos 0 + 1)) := by
  unfold joinStepR updAt
  split_ifs with h1 h2 <;>
    by_cases hq : q = pos <;> by_cases hq1 : q = pos + 1 <;>
      simp_all

/-- The right-neighbour half sets `join-left` exactly at the right
neighbour of the loop position when its condition holds. -/
lemma joinStepR_joinLeft (tiles : List Nat) (fl : Nat → JoinFlags) (pos q : Nat) :
    (joinStepR tiles fl pos q).joinLeft = true ↔
      ((fl q).joinLeft = true ∨
        (q = pos + 1 ∧ pos % N < N - 1 ∧ tiles.getD pos 0 % N ≠ N - 1 ∧
          tiles.getD (pos + 1) 0 = tiles.getD pos 0 + 1)) := by
  unfold joinStepR updAt
  split_ifs with h1 h2 <;>
    by_cases hq : q = pos <;> by_cases hq1 : q = pos + 1 <;>
      simp_all

/-- The right-neighbour half touches no other class fields. -/
lemma joinStepR_rest (tiles : List Nat) (fl : Nat → JoinFlags) (pos q : Nat) :
    (joinStepR tiles fl pos q).joinBottom = (fl q).joinBottom ∧
    (joinStepR tiles fl pos q).joinTop = (fl q).joinTop ∧
    (joinStepR tiles fl pos q).sharpTL = (fl q).sharpTL ∧
    (joinStepR tiles fl pos q).sharpTR = (fl q).sharpTR ∧
    (joinStepR tiles fl pos q).sharpBR = (fl q).sharpBR ∧
    (joinStepR tiles fl pos q).sharpBL = (fl q).sharpBL := by
  unfold joinStepR updAt
  split_ifs with h1 h2 <;>
    by_cases hq : q = pos <;> by_cases hq1 : q = pos + 1 <;>
      simp_all

/-- The bottom-neighbour half sets `join-bottom` exactly at the loop
position when its condition holds. -/
lemma joinStepB_joinBottom (tiles : List Nat) (fl : Nat → JoinFlags) (pos q : Nat) :
    (joinStepB tiles fl pos q).joinBottom = true ↔
      ((fl q).joinBottom = true ∨
        (q = pos ∧ pos / N < N - 1 ∧ tiles.getD pos 0 / N ≠ N - 1 ∧
          tiles.getD (pos + N) 0 = tiles.getD pos 0 + N)) := by
  unfold joinStepB updAt
  split_ifs with h1 h2 <;>
    by_cases hq : q = pos <;> by_cases hqN : q = pos + N <;>
      simp_all [N]

/-- The bottom-neighbour half sets `join-top` exactly at the bottom
neighbour of the loop position when its condition holds. -/
lemma joinStepB_joinTop (tiles : List Nat) (fl : Nat → JoinFlags) (pos q : Nat) :
    (joinStepB tiles fl pos q).joinTop = true ↔
      ((fl q).joinTop = true ∨
        (q = pos + N ∧ pos / N < N - 1 ∧ tiles.getD pos 0 / N ≠ N - 1 ∧
          tiles.getD (pos + N) 0 = tiles.getD pos 0 + N)) := by
  unfold joinStepB updAt
  split_ifs with h1 h2 <;>
    by_cases hq : q = pos <;> by_cases hqN : q = pos + N <;>
      simp_all [N]

/-- The bottom-neighbour half touches no other class fields. -/
lemma joinStepB_rest (tiles : List Nat) (fl : Nat → JoinFlags) (pos q : Nat) :
    (joinStepB tiles fl pos q).joinRight = (fl q).joinRight ∧
    (joinStepB tiles fl pos q).joinLeft = (fl q).joinLeft ∧
    (joinStepB tiles fl pos q).sharpTL = (fl q).sharpTL ∧
    (joinStepB tiles fl pos q).sharpTR = (fl q).sharpTR ∧
    (joinStepB tiles fl pos q).sharpBR = (fl q).sharpBR ∧
    (joinStepB tiles fl pos q).sharpBL = (fl q).sharpBL := by
  unfold joinStepB updAt
  split_ifs with h1 h2 <;>
    by_cases hq : q = pos <;> by_cases hqN : q = pos + N <;>
      simp_all

/-- Invariant of the first `updateJoins` loop after processing the
positions `0 .. n-1`: a join class is set exactly when its unique
writing iteration has run and that iteration's condition held, and no
`sharp` class is set yet. -/
lemma joinPass_fold_spec (tiles : List Nat) :
    ∀ n fl, fl = (List.range n).foldl (joinStep tiles) (fun _ => noJoins) →
    ∀ q,
      ((fl q).joinRight = true ↔ (q < n ∧ q % N < N - 1 ∧
        tiles.getD q 0 % N ≠ N - 1 ∧ tiles.getD (q + 1) 0 = tiles.getD q 0 + 1)) ∧
      ((fl q).joinLeft = true ↔ (∃ p2, q = p2 + 1 ∧ p2 < n ∧ p2 % N < N - 1 ∧
        tiles.getD p2 0 % N ≠ N - 1 ∧ tiles.getD (p2 + 1) 0 = tiles.getD p2 0 + 1)) ∧
      ((fl q).joinBottom = true ↔ (q < n ∧ q / N < N - 1 ∧
        tiles.getD q 0 / N ≠ N - 1 ∧ tiles.getD (q + N) 0 = tiles.getD q 0 + N)) ∧
      ((fl q).joinTop = true ↔ (∃ p2, q = p2 + N ∧ p2 < n ∧ p2 / N < N - 1 ∧
        tiles.getD p2 0 / N ≠ N - 1 ∧ tiles.getD (p2 + N) 0 = tiles.getD p2 0 + N)) ∧
      (fl q).sharpTL = false ∧ (fl q).sharpTR = false ∧
      (fl q).sharpBR = false ∧ (fl q).sharpBL = false := by
  intro n
  induction n with
  | zero =>
    intro fl hfl q
    subst hfl
    simp [noJoins]
  | succ n ih =>
    intro fl hfl q
    have hfl2 : fl = joinStep tiles
        ((List.range n).foldl (joinStep tiles) (fun _ => noJoins)) n := by
      rw [hfl, List.range_succ, List.foldl_append, List.foldl_cons, List.foldl_nil]
    have ihq := ih _ rfl
    have hstep : ∀ fl2 pos q2, joinStep tiles fl2 pos q2 =
        joinStepB tiles (joinStepR tiles fl2 pos) pos q2 := fun _ _ _ => rfl
    refine ⟨?_, ?_, ?_, ?_, ?_, ?_, ?_, ?_⟩
    · rw [hfl2, hstep]
      rw [(joinStepB_rest tiles _ n q).1, joinStepR_joinRight, (ihq q).1]
      constructor
      · rintro (⟨hlt, hrest⟩ | ⟨rfl, hrest⟩)
        · exact ⟨Nat.lt_succ_of_lt hlt, hrest⟩
        · exact ⟨Nat.lt_succ_self _, hrest⟩
      · rintro ⟨hlt, hrest⟩
        rcases Nat.lt_succ_iff_lt_or_eq.mp hlt with h | rfl
        · exact Or.inl ⟨h, hrest⟩
        · exact Or.inr ⟨rfl, hrest⟩
    · rw [hfl2, hstep]
      rw [(joinStepB_rest tiles _ n q).2.1, joinStepR_joinLeft, (ihq q).2.1]
      constructor
      · rintro (⟨p2, rfl, hlt, hrest⟩ | ⟨rfl, hrest⟩)
        · exact ⟨p2, rfl, Nat.lt_succ_of_lt hlt, hrest⟩
        · exact ⟨n, rfl, Nat.lt_succ_self _, hrest⟩
      · rintro ⟨p2, rfl, hlt, hrest⟩
        rcases Nat.lt_succ_iff_lt_or_eq.mp hlt with h | rfl
        · exact Or.inl ⟨p2, rfl, h, hrest⟩
        · exact Or.inr ⟨rfl, hrest⟩
    · rw [hfl2, hstep]
      rw [joinStepB_joinBottom, (joinStepR_rest tiles _ n q).1, (ihq q).2.2.1]
      constructor
      · rintro (⟨hlt, hrest⟩ | ⟨rfl, hrest⟩)
        · exact ⟨Nat.lt_succ_of_lt hlt, hrest⟩
        · exact ⟨Nat.lt_succ_self _, hrest⟩
      · rintro ⟨hlt, hrest⟩
        rcases Nat.lt_succ_iff_lt_or_eq.mp hlt with h | rfl
        · exact Or.inl ⟨h, hrest⟩
        · exact Or.inr ⟨rfl, hrest⟩
    · rw [hfl2, hstep]
      rw [joinStepB_joinTop, (joinStepR_rest tiles _ n q).2.1, (ihq q).2.2.2.1]
      constructor
      · rintro (⟨p2, rfl, hlt, hrest⟩ | ⟨rfl, hrest⟩)
        · exact ⟨p2, rfl, Nat.lt_succ_of_lt hlt, hrest⟩
        · exact ⟨n, rfl, Nat.lt_succ_self _, hrest⟩
      · rintro ⟨p2, rfl, hlt, hrest⟩
        rcases Nat.lt_succ_iff_lt_or_eq.mp hlt with h | rfl
        · exact Or.inl ⟨p2, rfl, h, hrest⟩
        · exact Or.inr ⟨rfl, hrest⟩
    · rw [hfl2, hstep]
      rw [(joinStepB_rest tiles _ n q).2.2.1, (joinStepR_rest tiles _ n q).2.2.1]
      exact (ihq q).2.2.2.2.1
    · rw [hfl2, hstep]
      rw [(joinStepB_rest tiles _ n q).2.2.2.1, (joinStepR_rest tiles _ n q).2.2.2.1]
      exact (ihq q).2.2.2.2.2.1
    · rw [hfl2, hstep]
      rw [(joinStepB_rest tiles _ n q).2.2.2.2.1, (joinStepR_rest tiles _ n q).2.2.2.2.1]
      exact (ihq q).2.2.2.2.2.2.1
    · rw [hfl2, hstep]
      rw [(joinStepB_rest tiles _ n q).2.2.2.2.2, (joinStepR_rest tiles _ n q).2.2.2.2.2]
      exact (ihq q).2.2.2.2.2.2.2

/-- `N` evaluates to 10. -/
lemma N_eq : N = 10 := rfl

/-- Pointwise evaluation of `updAt`. -/
lemma updAt_eval (f : Nat → JoinFlags) (i : Nat) (g : JoinFlags → JoinFlags)
    (q : Nat) : updAt f i g q = if q = i then g (f i) else f q := rfl

/-- The corner loop body never changes a join class. -/
lemma sharpStep_joins (fl : Nat → JoinFlags) (pos q : Nat) :
    (sharpStep fl pos q).joinTop = (fl q).joinTop ∧
    (sharpStep fl pos q).joinRight = (fl q).joinRight ∧
    (sharpStep fl pos q).joinBottom = (fl q).joinBottom ∧
    (sharpStep fl pos q).joinLeft = (fl q).joinLeft := by
  simp only [sharpStep, updAt_eval, N_eq, ite_apply]
  split_ifs <;> first
    | (exfalso; omega)
    | simp_all

/-- The corner loop body sets `sharp-br` exactly at its vertex tile
when the eight-join condition holds. -/
lemma sharpStep_sharpBR (fl : Nat → JoinFlags) (pos q : Nat) :
    (sharpStep fl pos q).sharpBR = true ↔
      ((fl q).sharpBR = true ∨ (q = pos ∧ sharpOk fl pos = true)) := by
  simp only [sharpStep, updAt_eval, N_eq, ite_apply]
  split_ifs <;> first
    | (exfalso; omega)
    | simp_all

/-- The corner loop body sets `sharp-bl` exactly at the tile right of
its vertex when the condition holds. -/
lemma sharpStep_sharpBL (fl : Nat → JoinFlags) (pos q : Nat) :
    (sharpStep fl pos q).sharpBL = true ↔
      ((fl q).sharpBL = true ∨ (q = pos + 1 ∧ sharpOk fl pos = true)) := by
  simp only [sharpStep, updAt_eval, N_eq, ite_apply]
  split_ifs <;> first
    | (exfalso; omega)
    | simp_all

/-- The corner loop body sets `sharp-tr` exactly at the tile below its
vertex when the condition holds. -/
lemma sharpStep_sharpTR (fl : Nat → JoinFlags) (pos q : Nat) :
    (sharpStep fl pos q).sharpTR = true ↔
      ((fl q).sharpTR = true ∨ (q = pos + N ∧ sharpOk fl pos = true)) := by
  simp only [sharpStep, updAt_eval, N_eq, ite_apply]
  split_ifs <;> first
    | (exfalso; omega)
    | simp_all

/-- The corner loop body sets `sharp-tl` exactly at the tile diagonally
below-right of its vertex when the condition holds. -/
lemma sharpStep_sharpTL (fl : Nat → JoinFlags) (pos q : Nat) :
    (sharpStep fl pos q).sharpTL = true ↔
      ((fl q).sharpTL = true ∨ (q = pos + N + 1 ∧ sharpOk fl pos = true)) := by
  simp only [sharpStep, updAt_eval, N_eq, ite_apply]
  split_ifs <;> first
    | (exfalso; omega)
    | simp_all

/-- The eight-join condition only reads join classes, which the corner
loop never changes. -/
lemma sharpOk_sharpStep (fl : Nat → JoinFlags) (a p2 : Nat) :
    sharpOk (sharpStep fl a) p2 = sharpOk fl p2 := by
  unfold sharpOk
  rw [(sharpStep_joins fl a p2).2.1, (sharpStep_joins fl a p2).2.2.1,
    (sharpStep_joins fl a (p2 + 1)).2.2.2, (sharpStep_joins fl a (p2 + 1)).2.2.1,
    (sharpStep_joins fl a (p2 + N)).1, (sharpStep_joins fl a (p2 + N)).2.1,
    (sharpStep_joins fl a (p2 + N + 1)).1, (sharpStep_joins fl a (p2 + N + 1)).2.2.2]

/-- Effect of folding the corner loop body over any list of vertex
positions: joins are untouched, and each `sharp` class is set exactly
when some processed vertex wrote it with its condition true. -/
lemma sharpFold_spec :
    ∀ (L : List Nat) (fl : Nat → JoinFlags) (q : Nat),
      ((L.foldl sharpStep fl q).joinTop = (fl q).joinTop ∧
       (L.foldl sharpStep fl q).joinRight = (fl q).joinRight ∧
       (L.foldl sharpStep fl q).joinBottom = (fl q).joinBottom ∧
       (L.foldl sharpStep fl q).joinLeft = (fl q).joinLeft) ∧
      ((L.foldl sharpStep fl q).sharpBR = true ↔
        ((fl q).sharpBR = true ∨ ∃ p2, p2 ∈ L ∧ q = p2 ∧ sharpOk fl p2 = true)) ∧
      ((L.foldl sharpStep fl q).sharpBL = true ↔
        ((fl q).sharpBL = true ∨ ∃ p2, p2 ∈ L ∧ q = p2 + 1 ∧ sharpOk fl p2 = true)) ∧
      ((L.foldl sharpStep fl q).sharpTR = true ↔
        ((fl q).sharpTR = true ∨ ∃ p2, p2 ∈ L ∧ q = p2 + N ∧ sharpOk fl p2 = true)) ∧
      ((L.foldl sharpStep fl q).sharpTL = true ↔
        ((fl q).sharpTL = true ∨ ∃ p2, p2 ∈ L ∧ q = p2 + N + 1 ∧ sharpOk fl p2 = true)) := by
  intro L
  induction L with
  | nil => intro fl q; simp
  | cons a L ih =>
    intro fl q
    refine ⟨⟨?_, ?_, ?_, ?_⟩, ?_, ?_, ?_, ?_⟩
    · rw [List.foldl_cons, (ih (sharpStep fl a) q).1.1, (sharpStep_joins fl a q).1]
    · rw [List.foldl_cons, (ih (sharpStep fl a) q).1.2.1, (sharpStep_joins fl a q).2.1]
    · rw [List.foldl_cons, (ih (sharpStep fl a) q).1.2.2.1,
        (sharpStep_joins fl a q).2.2.1]
    · rw [List.foldl_cons, (ih (sharpStep fl a) q).1.2.2.2,
        (sharpStep_joins fl a q).2.2.2]
    · rw [List.foldl_cons, (ih (sharpStep fl a) q).2.1]
      simp only [sharpOk_sharpStep]
      rw [sharpStep_sharpBR, List.exists_mem_cons_iff, or_assoc]
    · rw [List.foldl_cons, (ih (sharpStep fl a) q).2.2.1]
      simp only [sharpOk_sharpStep]
      rw [sharpStep_sharpBL, List.exists_mem_cons_iff, or_assoc]
    · rw [List.foldl_cons, (ih (sharpStep fl a) q).2.2.2.1]
      simp only [sharpOk_sharpStep]
      rw [sharpStep_sharpTR, List.exists_mem_cons_iff, or_assoc]
    · rw [List.foldl_cons, (ih (sharpStep fl a) q).2.2.2.2]
      simp only [sharpOk_sharpStep]
      rw [sharpStep_sharpTL, List.exists_mem_cons_iff, or_assoc]

/-- Folding over a concatenation of segments is the nested fold. -/
lemma foldl_flatMap_eq {α β γ : Type} (g : α → List γ) (f : β → γ → β) :
    ∀ (ys : List α) (init : β),
      (ys.flatMap g).foldl f init = ys.foldl (fun acc y => (g y).foldl f acc) init := by
  intro ys
  induction ys with
  | nil => intro init; rfl
  | cons a t ih =>
    intro init
    simp only [List.flatMap_cons, List.foldl_append, List.foldl_cons]
    exact ih _

/-- The nested corner loops are one fold over the row-major list of
vertex positions. -/
lemma sharpPass_eq_foldl (fl : Nat → JoinFlags) :
    sharpPass fl = ((List.range (N - 1)).flatMap fun y =>
      (List.range (N - 1)).map fun x => y * N + x).foldl sharpStep fl := by
  rw [foldl_flatMap_eq]
  unfold sharpPass
  congr 1

/-- A position is visited by the corner loops exactly when it is an
interior vertex tile (not in the last row or column of the board). -/
lemma mem_vertexList (q : Nat) :
    (q ∈ (List.range (N - 1)).flatMap fun y =>
      (List.range (N - 1)).map fun x => y * N + x) ↔
    (q % N < N - 1 ∧ q / N < N - 1) := by
  simp only [List.mem_flatMap, List.mem_map, List.mem_range, N_eq]
  constructor
  · rintro ⟨y, hy, x, hx, rfl⟩
    omega
  · rintro ⟨h1, h2⟩
    exact ⟨q / 10, by omega, q % 10, by omega, by omega⟩

/-- `updateJoins` leaves the join classes of the first pass unchanged. -/
lemma updateJoins_joins (tiles : List Nat) (q : Nat) :
    (updateJoins tiles q).joinTop = (joinPass tiles q).joinTop ∧
    (updateJoins tiles q).joinRight = (joinPass tiles q).joinRight ∧
    (updateJoins tiles q).joinBottom = (joinPass tiles q).joinBottom ∧
    (updateJoins tiles q).joinLeft = (joinPass tiles q).joinLeft := by
  unfold updateJoins
  rw [sharpPass_eq_foldl]
  exact (sharpFold_spec _ _ q).1

/-- `sharp-br` after `updateJoins`: some visited vertex wrote it. -/
lemma updateJoins_sharpBR (tiles : List Nat) (q : Nat) :
    (updateJoins tiles q).sharpBR = true ↔
      ∃ p2, (p2 % N < N - 1 ∧ p2 / N < N - 1) ∧ q = p2 ∧
        sharpOk (joinPass tiles) p2 = true := by
  unfold updateJoins
  rw [sharpPass_eq_foldl, (sharpFold_spec _ _ q).2.1,
    (joinPass_fold_spec tiles total (joinPass tiles) rfl q).2.2.2.2.2.2.1]
  simp only [Bool.false_eq_true, false_or, mem_vertexList]

/-- `sharp-bl` after `updateJoins`: some visited vertex wrote it. -/
lemma updateJoins_sharpBL (tiles : List Nat) (q : Nat) :
    (updateJoins tiles q).sharpBL = true ↔
      ∃ p2, (p2 % N < N - 1 ∧ p2 / N < N - 1) ∧ q = p2 + 1 ∧
        sharpOk (joinPass tiles) p2 = true := by
  unfold updateJoins
  rw [sharpPass_eq_foldl, (sharpFold_spec _ _ q).2.2.1,
    (joinPass_fold_spec tiles total (joinPass tiles) rfl q).2.2.2.2.2.2.2]
  simp only [Bool.false_eq_true, false_or, mem_vertexList]

/-- `sharp-tr` after `updateJoins`: some visited vertex wrote it. -/
lemma updateJoins_sharpTR (tiles : List Nat) (q : Nat) :
    (updateJoins tiles q).sharpTR = true ↔
      ∃ p2, (p2 % N < N - 1 ∧ p2 / N < N - 1) ∧ q = p2 + N ∧
        sharpOk (joinPass tiles) p2 = true := by
  unfold updateJoins
  rw [sharpPass_eq_foldl, (sharpFold_spec _ _ q).2.2.2.1,
    (joinPass_fold_spec tiles total (joinPass tiles) rfl q).2.2.2.2.2.1]
  simp only [Bool.false_eq_true, false_or, mem_vertexList]

/-- `sharp-tl` after `updateJoins`: some visited vertex wrote it. -/
lemma updateJoins_sharpTL (tiles : List Nat) (q : Nat) :
    (updateJoins tiles q).sharpTL = true ↔
      ∃ p2, (p2 % N < N - 1 ∧ p2 / N < N - 1) ∧ q = p2 + N + 1 ∧
        sharpOk (joinPass tiles) p2 = true := by
  unfold updateJoins
  rw [sharpPass_eq_foldl, (sharpFold_spec _ _ q).2.2.2.2,
    (joinPass_fold_spec tiles total (joinPass tiles) rfl q).2.2.2.2.1]
  simp only [Bool.false_eq_true, false_or, mem_vertexList]

/-- The eight-join `ok` condition of the corner loop collapses to the
four distinct joins around the vertex, because `join-left` of a right
neighbour is written together with `join-right` of its tile and
`join-top` of a bottom neighbour together with `join-bottom`. -/
lemma sharpOk_iff_joins (tiles : List Nat) (p2 : Nat) :
    sharpOk (joinPass tiles) p2 = true ↔
      ((joinPass tiles p2).joinRight = true ∧
       (joinPass tiles p2).joinBottom = true ∧
       (joinPass tiles (p2 + 1)).joinBottom = true ∧
       (joinPass tiles (p2 + N)).joinRight = true) := by
  have hch := joinPass_fold_spec tiles total (joinPass tiles) rfl
  have hjl1 : (joinPass tiles (p2 + 1)).joinLeft = true ↔
      (joinPass tiles p2).joinRight = true := by
    rw [(hch (p2 + 1)).2.1, (hch p2).1]
    constructor
    · rintro ⟨pp, hpp, h⟩
      obtain rfl : pp = p2 := by omega
      exact h
    · intro h
      exact ⟨p2, rfl, h⟩
  have hjt10 : (joinPass tiles (p2 + N)).joinTop = true ↔
      (joinPass tiles p2).joinBottom = true := by
    rw [(hch (p2 + N)).2.2.2.1, (hch p2).2.2.1]
    constructor
    · rintro ⟨pp, hpp, h⟩
      obtain rfl : pp = p2 := by omega
      exact h
    · intro h
      exact ⟨p2, rfl, h⟩
  have hjt11 : (joinPass tiles (p2 + N + 1)).joinTop = true ↔
      (joinPass tiles (p2 + 1)).joinBottom = true := by
    rw [(hch (p2 + N + 1)).2.2.2.1, (hch (p2 + 1)).2.2.1]
    constructor
    · rintro ⟨pp, hpp, h⟩
      obtain rfl : pp = p2 + 1 := by omega
      exact h
    · intro h
      exact ⟨p2 + 1, by omega, h⟩
  have hjl11 : (joinPass tiles (p2 + N + 1)).joinLeft = true ↔
      (joinPass tiles (p2 + N)).joinRight = true := by
    rw [(hch (p2 + N + 1)).2.1, (hch (p2 + N)).1]
    constructor
    · rintro ⟨pp, hpp, h⟩
      obtain rfl : pp = p2 + N := by omega
      exact h
    · intro h
      exact ⟨p2 + N, rfl, h⟩
  unfold sharpOk
  simp only [Bool.and_eq_true]
  rw [hjl1, hjt10, hjt11, hjl11]
  tauto

/-- C8: after `updateJoins`, for every board position `p`: the tile at
`p` carries `join-right` iff `p` is not in the last board column, its
piece is not in the last image column (`piece % 10 ≠ 9`) and the right
neighbour's piece is `piece + 1` (and then its right neighbour carries
`join-left` under exactly the same condition); analogously
`join-bottom`/`join-top` with `piece + 10`; and the four `sharp` corner
classes around an interior vertex are present iff all four surrounding
joins hold, i.e. the 2×2 block is correctly assembled. -/
theorem updateJoins_spec (tiles : List Nat) (p : Nat) (hp : p < 100) :
    ((updateJoins tiles p).joinRight = true ↔
      (p % 10 < 9 ∧ tiles.getD p 0 % 10 ≠ 9 ∧
        tiles.getD (p + 1) 0 = tiles.getD p 0 + 1)) ∧
    (p % 10 < 9 →
      ((updateJoins tiles (p + 1)).joinLeft = true ↔
        (tiles.getD p 0 % 10 ≠ 9 ∧ tiles.getD (p + 1) 0 = tiles.getD p 0 + 1))) ∧
    ((updateJoins tiles p).joinBottom = true ↔
      (p / 10 < 9 ∧ tiles.getD p 0 / 10 ≠ 9 ∧
        tiles.getD (p + 10) 0 = tiles.getD p 0 + 10)) ∧
    (p / 10 < 9 →
      ((updateJoins tiles (p + 10)).joinTop = true ↔
        (tiles.getD p 0 / 10 ≠ 9 ∧ tiles.getD (p + 10) 0 = tiles.getD p 0 + 10))) ∧
    (p % 10 < 9 → p / 10 < 9 →
      (((updateJoins tiles p).sharpBR = true ∧
        (updateJoins tiles (p + 1)).sharpBL = true ∧
        (updateJoins tiles (p + 10)).sharpTR = true ∧
        (updateJoins tiles (p + 11)).sharpTL = true) ↔
       ((updateJoins tiles p).joinRight = true ∧
        (updateJoins tiles p).joinBottom = true ∧
        (updateJoins tiles (p + 1)).joinBottom = true ∧
        (updateJoins tiles (p + 10)).joinRight = true))) := by
  have hch := joinPass_fold_spec tiles total (joinPass tiles) rfl
  simp only [N_eq, total_eq] at hch
  have hj := updateJoins_joins tiles
  refine ⟨?_, ?_, ?_, ?_, ?_⟩
  · rw [(hj p).2.1, (hch p).1]
    simp [hp]
  · intro hx
    rw [(hj (p + 1)).2.2.2, (hch (p + 1)).2.1]
    constructor
    · rintro ⟨pp, hpp, hlt, hx2, hA, hB⟩
      obtain rfl : pp = p := by omega
      exact ⟨hA, hB⟩
    · rintro ⟨hA, hB⟩
      exact ⟨p, rfl, hp, hx, hA, hB⟩
  · rw [(hj p).2.2.1, (hch p).2.2.1]
    simp [hp]
  · intro hy
    rw [(hj (p + 10)).1, (hch (p + 10)).2.2.2.1]
    constructor
    · rintro ⟨pp, hpp, hlt, hy2, hA, hB⟩
      obtain rfl : pp = p := by omega
      exact ⟨hA, hB⟩
    · rintro ⟨hA, hB⟩
      exact ⟨p, rfl, hp, hy, hA, hB⟩
  · intro hx hy
    have hBR := updateJoins_sharpBR tiles p
    have hBL := updateJoins_sharpBL tiles (p + 1)
    have hTR := updateJoins_sharpTR tiles (p + 10)
    have hTL := updateJoins_sharpTL tiles (p + 11)
    have hOK := sharpOk_iff_joins tiles p
    simp only [N_eq] at hBR hBL hTR hTL hOK
    rw [hBR, hBL, hTR, hTL, (hj p).2.1, (hj p).2.2.1, (hj (p + 1)).2.2.1,
      (hj (p + 10)).2.1]
    constructor
    · rintro ⟨⟨p2, hv, hq, hOK2⟩, _⟩
      obtain rfl : p2 = p := by omega
      exact hOK.mp hOK2
    · intro h4
      have hOK2 := hOK.mpr h4
      exact ⟨⟨p, ⟨hx, hy⟩, rfl, hOK2⟩, ⟨p, ⟨hx, hy⟩, by omega, hOK2⟩,
        ⟨p, ⟨hx, hy⟩, by omega, hOK2⟩, ⟨p, ⟨hx, hy⟩, by omega, hOK2⟩⟩

/-- Closed witness for C8 at the solved board and position 0. -/
theorem updateJoins_spec_witness :
    (((updateJoins (List.range 100) 0).joinRight = true ↔
      (0 % 10 < 9 ∧ (List.range 100).getD 0 0 % 10 ≠ 9 ∧
        (List.range 100).getD (0 + 1) 0 = (List.range 100).getD 0 0 + 1)) ∧
    (0 % 10 < 9 →
      ((updateJoins (List.range 100) (0 + 1)).joinLeft = true ↔
        ((List.range 100).getD 0 0 % 10 ≠ 9 ∧
          (List.range 100).getD (0 + 1) 0 = (List.range 100).getD 0 0 + 1))) ∧
    ((updateJoins (List.range 100) 0).joinBottom = true ↔
      (0 / 10 < 9 ∧ (List.range 100).getD 0 0 / 10 ≠ 9 ∧
        (List.range 100).getD (0 + 10) 0 = (List.range 100).getD 0 0 + 10)) ∧
    (0 / 10 < 9 →
      ((updateJoins (List.range 100) (0 + 10)).joinTop = true ↔
        ((List.range 100).getD 0 0 / 10 ≠ 9 ∧
          (List.range 100).getD (0 + 10) 0 = (List.range 100).getD 0 0 + 10))) ∧
    (0 % 10 < 9 → 0 / 10 < 9 →
      (((updateJoins (List.range 100) 0).sharpBR = true ∧
        (updateJoins (List.range 100) (0 + 1)).sharpBL = true ∧
        (updateJoins (List.range 100) (0 + 10)).sharpTR = true ∧
        (updateJoins (List.range 100) (0 + 11)).sharpTL = true) ↔
       ((updateJoins (List.range 100) 0).joinRight = true ∧
        (updateJoins (List.range 100) 0).joinBottom = true ∧
        (updateJoins (List.range 100) (0 + 1)).joinBottom = true ∧
        (updateJoins (List.range 100) (0 + 10)).joinRight = true)))) :=
  updateJoins_spec (List.range 100) 0 (by decide)

end Puzzle
